import Mathlib

/-
Formal model of the RISC-16-ASM assembler front-end.

The definitions below are a shallow embedding of the C++ sources:
  * `src/include/easyMathLib/easyMath.h`   — numeric helpers,
  * `src/include/easyParseLib/easyParse.h` — lexical helpers and number/escape parsing,
  * `src/include/genAsmLib/tokeniser.h`    — symbol tokenisation (numeric initialiser shaping),
  * `src/include/genAsmLib/symbolTable.h`  — symbol table, insertion and resolution,
  * `src/include/genAsmLib/addressResolver.h` — offset counters,
  * `src/include/genAsmLib/codedInstruction.h` — instruction bit-field packing.

Conventions:
  * C++ strings / string_views are modelled as `List Char`; `std::string` symbol
    names as `String`.
  * Unsigned machine integers are modelled as `Nat` with explicit `% 2^w`
    wherever the C++ arithmetic can wrap within the claims' scope.
  * A function that can throw is modelled with `Option` / `Except`; `none`
    (resp. `.error`) is the thrown exception.
-/

set_option maxRecDepth 4096

/-! ## easyMathLib/easyMath.h -/

/-- `easyMath::valueBetweenInclusive` specialised to `char`
(easyMath.h lines 97-101): `begin <= value && value <= end`. -/
def valueBetweenInclusive (value lo hi : Char) : Bool :=
  lo ≤ value ∧ value ≤ hi

/-- `easyMath::DivideRoundUp` (easyMath.h lines 643-656). -/
def DivideRoundUp (numerator denominator : Nat) : Nat :=
  let remainder := numerator % denominator
  let ret := numerator / denominator
  if remainder ≠ 0 then ret + 1 else ret

/-! ## easyParseLib/easyParse.h — digit converters and validators -/

/-- `easyParse::hexDigitConverter` (easyParse.h lines 81-89).
The C++ result type is `std::uint8_t`, hence the `% 256`. -/
def hexDigitConverter (ch : Char) : Nat :=
  if valueBetweenInclusive ch 'a' 'f' then (ch.toNat - 'a'.toNat + 10) % 256
  else if valueBetweenInclusive ch 'A' 'F' then (ch.toNat - 'A'.toNat + 10) % 256
  else (ch.toNat - '0'.toNat) % 256

/-- `easyParse::digitConverter` (easyParse.h lines 97-100), result type
`std::uint8_t`.  (All call sites validate `'0' ≤ ch` first, where
`ch - '0'` is the plain digit value.) -/
def digitConverter (ch : Char) : Nat :=
  (ch.toNat - '0'.toNat) % 256

/-- `easyParse::validateHexString` (easyParse.h lines 455-468). -/
def validateHexString (numberString : List Char) : Bool :=
  numberString.all fun digit =>
    valueBetweenInclusive digit '0' '9'
    || valueBetweenInclusive digit 'a' 'f'
    || valueBetweenInclusive digit 'A' 'F'

/-- `easyParse::validateOctString` (easyParse.h lines 471-482). -/
def validateOctString (numberString : List Char) : Bool :=
  numberString.all fun digit => valueBetweenInclusive digit '0' '7'

/-- `easyParse::validateDecString` (easyParse.h lines 484-495). -/
def validateDecString (numberString : List Char) : Bool :=
  numberString.all fun digit => valueBetweenInclusive digit '0' '9'

/-- `easyParse::validateBinString` (easyParse.h lines 497-508). -/
def validateBinString (numberString : List Char) : Bool :=
  numberString.all fun digit => digit = '0' || digit = '1'

/-! ## easyParse.h — base conversion

`impl_detail_::convertDirectTranslatableBaseString_` is generic over the
destination integer type; we carry its bit width `w` explicitly.
`perBit` is the template parameter `perBitSize` (3 for octal, 4 for hex). -/

/-- `impl_detail_::convertDigit_<perBitSize>` (easyParse.h lines 173-201):
specialised to `digitConverter` at 3 bits and `hexDigitConverter` at 4 bits;
the unspecialised template returns `{-1ull}` truncated to `uint8`, i.e. 255. -/
def convertDigit (perBit : Nat) (digit : Char) : Nat :=
  match perBit with
  | 3 => digitConverter digit
  | 4 => hexDigitConverter digit
  | _ => 255

/-- The digit loop of `impl_detail_::convertDirectTranslatableBaseString_`
(easyParse.h lines 248-267).  Arguments: the digits indexed
`numberString.size() - count .. numberString.size() - 1`, the remaining bit
budget `size`, and the accumulator `v` (initialised to `carry`).
Returns `(retVal, retCarrySize, retCarryVal)`.

In the partial-digit branch (source lines 256-266) the C++ statement
`retVal = retVal << size;` is immediately overwritten by
`retVal = retCarryVal & mask;`, so the accumulated value is discarded; the
branch then sets `size = 0`, which terminates the loop. -/
def convertLoop (perBit w : Nat) : List Char → Nat → Nat → Nat × Nat × Nat
  | [], _, v => (v, 0, 0)
  | _ :: _, 0, v => (v, 0, 0)
  | d :: ds, size + 1, v =>
    if perBit ≤ size + 1 then
      convertLoop perBit w ds (size + 1 - perBit)
        ((((v <<< perBit) % 2 ^ w) ||| (convertDigit perBit d &&& (2 ^ perBit - 1))) % 2 ^ w)
    else
      -- retCarryVal is of type SizeCapableUint<perBitSize> = uint8, hence % 256
      let cv := (convertDigit perBit d &&& (2 ^ perBit - 1)) % 256
      let mask := 2 ^ (size + 1) - 1
      (cv &&& mask, perBit - (size + 1), ((cv &&& ((2 ^ w - 1) ^^^ mask)) % 256) >>> (size + 1))

/-- `impl_detail_::convertDirectTranslatableBaseString_<Integer, perBitSize>`
(easyParse.h lines 216-275) with `w = bitSize<Integer>()`.  Returns the
`(value, carrySize, carryVal)` tuple together with the un-consumed prefix of
the number string (the in-out `numberString` parameter).  All in-repo call
sites pass `carrySize = 0`, so the `size_t` subtraction
`bitSize<Integer>() - carrySize` never wraps; it is modelled with truncated
`Nat` subtraction. -/
def convertDirectTranslatableBaseString (perBit w : Nat) (numberString : List Char)
    (carrySize carry : Nat) : (Nat × Nat × Nat) × List Char :=
  let numberStringSize := numberString.length * perBit
  let size := if w - carrySize < numberStringSize then w - carrySize else numberStringSize
  let count := DivideRoundUp size perBit
  let r := convertLoop perBit w (numberString.drop (numberString.length - count)) size carry
  (r, if count < numberString.length then numberString.take (numberString.length - count) else [])

/-- Single-argument `easyParse::convertHexString<Integer>` (easyParse.h
lines 308-314): the `<0>` component with zero carry. -/
def convertHexString (w : Nat) (numberString : List Char) : Nat :=
  (convertDirectTranslatableBaseString 4 w numberString 0 0).1.1

/-- Single-argument `easyParse::convertOctString<Integer>` (easyParse.h
lines 347-353): the `<0>` component with zero carry. -/
def convertOctString (w : Nat) (numberString : List Char) : Nat :=
  (convertDirectTranslatableBaseString 3 w numberString 0 0).1.1

/-- `easyParse::convertBinaryString<Integer>` (easyParse.h lines 148-162). -/
def convertBinaryString (w : Nat) (numberString : List Char) : Nat :=
  let size := min w numberString.length
  (numberString.drop (numberString.length - size)).foldl
    (fun ret d => (((ret <<< 1) % 2 ^ w) ||| (if d = '1' then 1 else 0)) % 2 ^ w) 0

/-- `easyParse::convertDecimalString<Integer>` (easyParse.h lines 362-374).
`ret += digit - '0'` is `int` arithmetic assigned back to the unsigned
`ret`; every call site is guarded by `validateDecString`, for whose digits
`digit - '0'` equals `digit.toNat - 48`. -/
def convertDecimalString (w : Nat) (numberString : List Char) : Nat :=
  numberString.foldl (fun ret d => (((ret * 10) % 2 ^ w) + (d.toNat - '0'.toNat)) % 2 ^ w) 0

/-- `easyParse::convertNumberString<UInteger>` (easyParse.h lines 874-922),
with `w = bitSize<UInteger>()`.  `none` models the thrown
`std::invalid_argument`. -/
def convertNumberString (w : Nat) (numberString : List Char) : Option Nat :=
  match numberString with
  | [] => none
  | c0 :: rest0 =>
    let isNegative := c0 = '-'
    let ns := if isNegative then rest0 else c0 :: rest0
    match ns with
    | [] => none
    | c1 :: rest1 =>
      let ret? : Option Nat :=
        if c1 = '0' then
          match rest1 with
          | [] => some 0
          | c2 :: rest2 =>
            if c2 = 'x' ∨ c2 = 'X' then
              if validateHexString rest2 then some (convertHexString w rest2) else none
            else if c2 = 'b' ∨ c2 = 'B' then
              if validateBinString rest2 then some (convertBinaryString w rest2) else none
            else if validateOctString (c2 :: rest2) then
              some (convertOctString w (c2 :: rest2))
            else none
        else if validateDecString (c1 :: rest1) then
          some (convertDecimalString w (c1 :: rest1))
        else none
      ret?.map fun ret =>
        -- `ret = ~ret + 1` on the unsigned w-bit type
        if isNegative then ((2 ^ w - 1 - ret) + 1) % 2 ^ w else ret

/-! ## easyParse.h — whitespace stripping -/

/-- `easyParse::WHITESPACE_STRING` (easyParse.h line 376).  The C++ literal
is `" \n\t\r\0"`, but `std::string_view`'s `const char*` constructor measures
the string with `strlen`, which stops at the embedded NUL: the resulting view
has size 4 and does not contain the NUL character. -/
def WHITESPACE_STRING : List Char := [' ', '\n', '\t', '\r']

/-- `std::string_view::find_first_not_of(set)`: index of the first character
not in `set`, `none` for `npos`. -/
def findFirstNotOf (line set : List Char) : Option Nat :=
  line.findIdx? fun c => ¬ set.contains c

/-- `std::string_view::find_last_not_of(set)`: index of the last character
not in `set`, `none` for `npos`. -/
def findLastNotOf (line set : List Char) : Option Nat :=
  match findFirstNotOf line.reverse set with
  | none => none
  | some i => some (line.length - 1 - i)

/-- `easyParse::stripWhiteSpace` (easyParse.h lines 400-411). -/
def stripWhiteSpace (line : List Char) : List Char :=
  match findFirstNotOf line WHITESPACE_STRING, findLastNotOf line WHITESPACE_STRING with
  | none, _ => []
  | some b, some e => (line.drop b).take (e - b + 1)
  | some _, none => []  -- unreachable: a first non-whitespace char is also a last one

/-! ## easyParse.h — escape sequences -/

/-- `easyParse::convertEscapedString` (easyParse.h lines 524-573).  The C++
function indexes `escapedString[0]` and dereferences `begin() + 1`
unconditionally; every call site passes at least two characters, and we map
the out-of-range reads of shorter inputs to `none`.  The result is the
`char` cast of a `uint8`, modelled as a `Char` with code < 256. -/
def convertEscapedString (escapedString : List Char) : Option Char :=
  match escapedString with
  | [] => none
  | c0 :: rest =>
    if c0 ≠ '\\' then none
    else
      match rest with
      | [] => none
      | ch :: rest2 =>
        if ch = '\'' then some '\''
        else if ch = '\"' then some '\"'
        else if ch = '?' then some '?'
        else if ch = '\\' then some '\\'
        else if ch = 'a' then some (Char.ofNat 7)
        else if ch = 'b' then some (Char.ofNat 8)
        else if ch = 'f' then some (Char.ofNat 12)
        else if ch = 'n' then some '\n'
        else if ch = 'r' then some '\r'
        else if ch = 't' then some '\t'
        else if ch = 'v' then some (Char.ofNat 11)
        else if ch = 'x' ∨ ch = 'X' then
          if validateHexString rest2 then some (Char.ofNat (convertHexString 8 rest2 % 256))
          else none
        else if ch = 'o' ∨ ch = 'O' then
          if validateOctString rest2 then some (Char.ofNat (convertOctString 8 rest2 % 256))
          else none
        else
          if validateDecString (ch :: rest2) then
            some (Char.ofNat (convertDecimalString 8 (ch :: rest2) % 256))
          else none

/-- `std::isxdigit` as used by `advanceOverText` (easyParse.h line 624). -/
def isxdigit (ch : Char) : Bool :=
  valueBetweenInclusive ch '0' '9'
  || valueBetweenInclusive ch 'a' 'f'
  || valueBetweenInclusive ch 'A' 'F'

/-- The octal-run condition of `advanceOverText` (easyParse.h line 647):
`(ch < '8') && (ch >= '0')`. -/
def isOctRunChar (ch : Char) : Bool :=
  ch < '8' && '0' ≤ ch

/-- The `ch == '\\'` branch of `easyParse::advanceOverText` (easyParse.h
lines 606-676), split out as a helper over the iterator position after the
backslash.  An empty remainder returns the lone backslash (line 674); in the
`x`/`X` arm end-of-input is a thrown exception (line 618); the digit-run
`while` loops become `takeWhile`/`dropWhile`. -/
def advanceEscape (it1 : List Char) : Option ((Char × Bool) × List Char) :=
  match it1 with
  | [] => some (('\\', true), [])
  | c2 :: it2 =>
    if c2 = 'x' ∨ c2 = 'X' then
      if it2 = [] then none
      else
        (convertEscapedString ('\\' :: c2 :: it2.takeWhile isxdigit)).map
          fun c => ((c, true), it2.dropWhile isxdigit)
    else if c2 = 'o' ∨ c2 = 'O' then
      (convertEscapedString ('\\' :: c2 :: it2.takeWhile isOctRunChar)).map
        fun c => ((c, true), it2.dropWhile isOctRunChar)
    else
      (convertEscapedString ['\\', c2]).map fun c => ((c, true), it2)

/-- `easyParse::advanceOverText` (easyParse.h lines 594-682).  The in-out
iterator pair becomes the returned remainder list; `none` models the thrown
`std::invalid_argument` (empty input, `"\x"` at end of input, or a malformed
escape rejected by `convertEscapedString`). -/
def advanceOverText : List Char → Option ((Char × Bool) × List Char)
  | [] => none
  | ch :: it1 => if ch = '\\' then advanceEscape it1 else some ((ch, false), it1)

/-- `advanceEscape` never grows the remainder. -/
theorem advanceEscape_length_le {it1 : List Char} {x : Char × Bool} {rest : List Char}
    (h : advanceEscape it1 = some (x, rest)) : rest.length ≤ it1.length := by
  match it1 with
  | [] =>
    simp only [advanceEscape, Option.some.injEq, Prod.mk.injEq] at h
    simp [← h.2]
  | c2 :: it2 =>
    simp only [advanceEscape] at h
    split_ifs at h with hx hnil ho
    · obtain ⟨c, hc, heq⟩ := Option.map_eq_some'.mp h
      cases heq
      calc (it2.dropWhile isxdigit).length
          ≤ it2.length := (List.dropWhile_sublist _).length_le
        _ ≤ (c2 :: it2).length := by simp
    · obtain ⟨c, hc, heq⟩ := Option.map_eq_some'.mp h
      cases heq
      calc (it2.dropWhile isOctRunChar).length
          ≤ it2.length := (List.dropWhile_sublist _).length_le
        _ ≤ (c2 :: it2).length := by simp
    · obtain ⟨c, hc, heq⟩ := Option.map_eq_some'.mp h
      cases heq
      simp

/-- Every successful `advanceOverText` step consumes at least one raw
character; this is the termination measure of the scanning loops below. -/
theorem advanceOverText_length_lt {l : List Char} {x : Char × Bool} {rest : List Char}
    (h : advanceOverText l = some (x, rest)) : rest.length < l.length := by
  match l with
  | [] => simp [advanceOverText] at h
  | ch :: it1 =>
    simp only [advanceOverText] at h
    split_ifs at h with hb
    · exact Nat.lt_succ_of_le (advanceEscape_length_le h)
    · cases h; simp

/-- The inner `while` loop of `easyParse::advanceSkipReportQuotedText`
(easyParse.h lines 772-789): entered with `isText = true` and
`isDoubleQuote = dq`; returns the final value of `isText` together with the
iterator position.  It exits with `false` when the matching unescaped quote
is found, and with `true` when end-of-input is reached inside the span. -/
def skipInner (dq : Bool) (l : List Char) : Option (Bool × List Char) :=
  match l with
  | [] => some (true, [])
  | c :: cs =>
    match h : advanceOverText (c :: cs) with
    | none => none
    | some ((charUnderEval, isEscaped), rest) =>
      if (charUnderEval = '\"' ∧ dq ∧ ¬isEscaped)
          ∨ (charUnderEval = '\'' ∧ ¬dq ∧ ¬isEscaped) then
        some (false, rest)
      else skipInner dq rest
termination_by l.length
decreasing_by exact advanceOverText_length_lt h

/-- A successful `skipInner` never grows the input. -/
theorem skipInner_length_le {dq : Bool} {l rest : List Char} {b : Bool}
    (h : skipInner dq l = some (b, rest)) : rest.length ≤ l.length := by
  induction l using skipInner.induct dq with
  | case1 =>
    rw [skipInner] at h
    cases h
    exact Nat.le_refl _
  | case2 c cs h2 =>
    rw [skipInner] at h
    split at h
    · exact Option.noConfusion h
    · rename_i heq
      rw [h2] at heq
      exact Option.noConfusion heq
  | case3 c cs ce es rest1 h2 hcond =>
    rw [skipInner] at h
    split at h
    · exact Option.noConfusion h
    · rename_i ce2 es2 rest2 heq
      rw [h2] at heq
      obtain ⟨he1, he2, he3⟩ : ce2 = ce ∧ es2 = es ∧ rest2 = rest1 := by
        injection heq with heq2
        injection heq2 with ha hb
        injection ha with ha1 ha2
        exact ⟨ha1.symm, ha2.symm, hb.symm⟩
      subst he1; subst he2; subst he3
      rw [if_pos hcond] at h
      cases h
      exact Nat.le_of_lt (advanceOverText_length_lt h2)
  | case4 c cs ce es rest1 h2 hcond ih =>
    rw [skipInner] at h
    split at h
    · exact Option.noConfusion h
    · rename_i ce2 es2 rest2 heq
      rw [h2] at heq
      obtain ⟨he1, he2, he3⟩ : ce2 = ce ∧ es2 = es ∧ rest2 = rest1 := by
        injection heq with heq2
        injection heq2 with ha hb
        injection ha with ha1 ha2
        exact ⟨ha1.symm, ha2.symm, hb.symm⟩
      subst he1; subst he2; subst he3
      rw [if_neg hcond] at h
      exact Nat.le_trans (ih h) (Nat.le_of_lt (advanceOverText_length_lt h2))

/-- The value of the returned C++ `char` (signed `char` on the targeted
platforms): bytes ≥ 128 collapse onto negative values, in particular byte
255 onto the end-of-input sentinel `-1`. -/
def signedOfByte (c : Char) : Int :=
  if c.toNat < 128 then (c.toNat : Int) else (c.toNat : Int) - 256

/-- The outer `while` loop of `easyParse::advanceSkipReportQuotedText`
(easyParse.h lines 770-801), entered with `isText = true` and
`isDoubleQuote = dq` after a character opened a quoted span. -/
def skipOuter (dq : Bool) (l : List Char) : Option ((Int × Bool) × List Char) :=
  match l with
  | [] => some (((-1 : Int), true), [])
  | c :: cs =>
    match h1 : skipInner dq (c :: cs) with
    | none => none
    | some (_, rest) =>
      match rest with
      | [] => some (((-1 : Int), true), [])
      | r :: rs =>
        match h2 : advanceOverText (r :: rs) with
        | none => none
        | some ((charUnderEval, isEscaped), rest2) =>
          let isDoubleQuote := charUnderEval = '\"'
          if ¬isEscaped ∧ (isDoubleQuote ∨ charUnderEval = '\'') then
            skipOuter isDoubleQuote rest2
          else some ((signedOfByte charUnderEval, true), rest2)
termination_by l.length
decreasing_by
  exact Nat.lt_of_lt_of_le (advanceOverText_length_lt h2) (skipInner_length_le h1)

/-- `easyParse::advanceSkipReportQuotedText` (easyParse.h lines 748-804).
The returned `Int` is the value of the returned C++ `char`: the code of the
next character outside quoted text (as a signed byte), or `-1` at
end-of-input; the `Bool` reports whether a quoted run was skipped.  `none`
models a thrown `std::invalid_argument` (empty input or malformed escape). -/
def advanceSkipReportQuotedText (l : List Char) : Option ((Int × Bool) × List Char) :=
  match advanceOverText l with
  | none => none
  | some ((charUnderEval, isEscaped), rest) =>
    let isDoubleQuote := charUnderEval = '\"'
    if ¬isEscaped ∧ (isDoubleQuote ∨ charUnderEval = '\'') then skipOuter isDoubleQuote rest
    else some ((signedOfByte charUnderEval, false), rest)

/-- Specification-side tagging of a line, following the words of the
quoted-span property: each logical character produced by `advanceOverText`
is paired with a flag telling whether it lies inside a quoted span (the
delimiting quotes included).  `state` is `some q` while inside a span opened
by the quote character `q`; an unescaped `q` closes it.  This definition is
not taken from the source; it is the reference against which
`advanceSkipReportQuotedText` is verified. -/
def quotedSpanTags (state : Option Char) (l : List Char) :
    Option (List ((Char × Bool) × Bool)) :=
  match l with
  | [] => some []
  | c0 :: cs =>
    match h : advanceOverText (c0 :: cs) with
    | none => none
    | some ((c, e), rest) =>
      match state with
      | none =>
        if ¬e ∧ (c = '\"' ∨ c = '\'') then
          (quotedSpanTags (some c) rest).map (((c, e), true) :: ·)
        else
          (quotedSpanTags none rest).map (((c, e), false) :: ·)
      | some q =>
        (quotedSpanTags (if ¬e ∧ c = q then none else some q) rest).map (((c, e), true) :: ·)
termination_by l.length
decreasing_by
  all_goals exact advanceOverText_length_lt h

/-! ## easyParse.h — delimiter splitting -/

/-- `easyParse::extractTillDelimiter` (easyParse.h lines 691-706): the
extracted piece together with the new value of the in-out `string`. -/
def extractTillDelimiter (string : List Char) (delim : Char) : List Char × List Char :=
  match string.findIdx? (· = delim) with
  | none => (string, [])
  | some find => (string.take find, string.drop (find + 1))

/-- `extractTillDelimiter` strictly shrinks a non-empty string. -/
theorem extractTillDelimiter_length_lt {string : List Char} (hs : string ≠ []) (delim : Char) :
    (extractTillDelimiter string delim).2.length < string.length := by
  rw [extractTillDelimiter]
  cases h : string.findIdx? (· = delim) with
  | none => simpa using List.length_pos.mpr hs
  | some find =>
    simp only [List.length_drop]
    have := List.length_pos.mpr hs
    omega

/-- The first loop of `easyParse::splitUsingDelimiterList` (easyParse.h
lines 723-726): one split per listed delimiter while the string is
non-empty; returns the pieces and the remaining string. -/
def splitPhase1 (string : List Char) (delim : List Char) : List (List Char) × List Char :=
  match delim with
  | [] => ([], string)
  | d :: ds =>
    if string = [] then ([], string)
    else
      let pr := extractTillDelimiter string d
      let rec2 := splitPhase1 pr.2 ds
      (pr.1 :: rec2.1, rec2.2)

/-- The second loop of `easyParse::splitUsingDelimiterList` (easyParse.h
lines 728-729): keep splitting on the last delimiter until empty. -/
def splitPhase2 (delim : Char) (string : List Char) : List (List Char) :=
  match string with
  | [] => []
  | c :: cs =>
    (extractTillDelimiter (c :: cs) delim).1
      :: splitPhase2 delim (extractTillDelimiter (c :: cs) delim).2
termination_by string.length
decreasing_by exact extractTillDelimiter_length_lt (by simp) delim

/-- `easyParse::splitUsingDelimiterList` (easyParse.h lines 719-732).
`delim.back()` is undefined behaviour for an empty delimiter list in C++;
all call sites pass a non-empty list, and `','` is the `getLastD` fallback. -/
def splitUsingDelimiterList (string : List Char) (delim : List Char) : List (List Char) :=
  let pr := splitPhase1 string delim
  pr.1 ++ splitPhase2 (delim.getLastD ',') pr.2

/-! ## genAsmLib/tokeniser.h — token data and numeric initialiser shaping -/

/-- `gen_asm::SymbolType` (tokeniser.h lines 155-166). -/
inductive SymbolType
  | JUMP
  | DATA
  | CONST
deriving DecidableEq

/-- `gen_asm::SymbolToken` (tokeniser.h lines 173-190), instantiated at the
`risc16::AssemblerTraits` binding of asm.cpp: `LargestType = uint64`,
`BlockSizeType` a small unsigned integer. -/
structure SymbolToken where
  symbolName : String
  isExport : Bool
  symbolType : SymbolType
  blockSizeCode : Nat
  init_value : List Nat
deriving DecidableEq

/-- The value-parsing loop of `Tokenizer::tokenizeSymbol_` (tokeniser.h
lines 472-476): `init_value[i] = convertNumberString(stripWhiteSpace(splitData[i]))`
for `i < mn`; `none` models a thrown conversion failure. -/
def fillLoop (w : Nat) (splitData : List (List Char)) (mn : Nat) (i : Nat)
    (init : List Nat) : Option (List Nat) :=
  if i < mn then
    match convertNumberString w (stripWhiteSpace (splitData.getD i [])) with
    | none => none
    | some v => fillLoop w splitData mn (i + 1) (init.set i v)
  else some init
termination_by mn - i

/-- The zero-padding loop of `Tokenizer::tokenizeSymbol_` (tokeniser.h
lines 478-479): `init_value[i] = 0` for `mn ≤ i < n` where
`n = init_value.size()`. -/
def zeroLoop (n : Nat) (i : Nat) (init : List Nat) : List Nat :=
  if i < n then zeroLoop n (i + 1) (init.set i 0) else init
termination_by n - i

/-- The numeric (non-ASCII) initialiser branch of
`Tokenizer::tokenizeSymbol_` (tokeniser.h lines 450 and 465-480): the
declared element count `n` came from the `[count]` group
(`init_value.resize(n)`, i.e. `n` zeros), and `rem` is the stripped line
from the cursor on.  `w` is the bit width of `IsaTraits::LargestType`. -/
def numericInitValues (w n : Nat) (rem : List Char) : Option (List Nat) :=
  let splitData := splitUsingDelimiterList rem [',']
  let mn := min n splitData.length
  match fillLoop w splitData mn 0 (List.replicate n 0) with
  | none => none
  | some init1 => some (zeroLoop n mn init1)

/-! ## genAsmLib/symbolTable.h and addressResolver.h -/

/-- `impl_detail_::BasicSymbol_` (symbolTable.h lines 59-64);
`TranslationId` is `std::size_t` in the risc16 binding. -/
structure BasicSymbol where
  translationUnitId : Nat
  symbolName : String
  isExport : Bool
deriving DecidableEq

/-- The `std::variant<JumpSymbol, DataSymbol, ConstSymbol>` entry
(symbolTable.h lines 69-88 and 115-119).  `jump` carries
`codeAddressOffset`; `data` carries `dataAddressOffset`, `sizeType` and
`elementCount`; `konst` (`ConstSymbol`) carries `sizeType` and
`init_value`. -/
inductive SymbolEntry
  | jump (base : BasicSymbol) (codeAddressOffset : Nat)
  | data (base : BasicSymbol) (dataAddressOffset : Nat) (sizeType : Nat) (elementCount : Nat)
  | konst (base : BasicSymbol) (sizeType : Nat) (init_value : List Nat)
deriving DecidableEq

/-- `SymbolTable::getLabelData` (symbolTable.h lines 128-131). -/
def getLabelData : SymbolEntry → BasicSymbol
  | .jump b _ => b
  | .data b _ _ _ => b
  | .konst b _ _ => b

/-- The error taxonomy of the symbol table (the thrown
`std::domain_error` / `std::invalid_argument` / `std::out_of_range`
messages of symbolTable.h). -/
inductive AsmError
  | unknownSymbol
  | jumpSubscriptForbidden
  | indexOutOfRangeSplit
  | indexOutOfRangeArray
  | symbolRedefined
  | exportCollision
deriving DecidableEq

/-- The mutable state of `SymbolTable` (symbolTable.h lines 110-126)
together with the `AddressResolver` counters it references
(addressResolver.h lines 53-66). -/
structure AsmState where
  symbols : List SymbolEntry
  codeBaseAddress : Nat
  dataBaseAddress : Nat
  codeAddressOffset : Nat
  dataAddressOffset : Nat
deriving DecidableEq

deriving instance DecidableEq for Except

/-- `SymbolTable::findSymbol_` (symbolTable.h lines 133-147): the first
entry whose name matches and which is visible (same translation unit or
exported); `none` is the `symbols_.end()` result. -/
def findSymbol_ : List SymbolEntry → String → Nat → Option SymbolEntry
  | [], _, _ => none
  | e :: rest, name, id =>
    let labelData := getLabelData e
    if labelData.symbolName = name ∧ (labelData.translationUnitId = id ∨ labelData.isExport) then
      some e
    else findSymbol_ rest name id

/-- `SymbolTable::findIfSymbol_` (symbolTable.h lines 149-164): scans the
entries in order and reports the first collision; `some err` models the
thrown `std::domain_error`. -/
def findIfSymbol_ : List SymbolEntry → BasicSymbol → Option AsmError
  | [], _ => none
  | e :: rest, check =>
    let labelData := getLabelData e
    if labelData.symbolName = check.symbolName then
      if labelData.translationUnitId = check.translationUnitId then
        some .symbolRedefined
      else if labelData.isExport || check.isExport then
        some .exportCollision
      else findIfSymbol_ rest check
    else findIfSymbol_ rest check

/-- `AddressResolver::updateOffsets(const SymbolToken&)` (addressResolver.h
lines 78-84).  `AddressType` is `uint16` in the risc16 binding, hence the
`% 2^16`. -/
def updateOffsetsSymbol (getSizeInBasic : Nat → Nat) (st : AsmState) (tok : SymbolToken) :
    AsmState :=
  if tok.symbolType = .DATA then
    { st with dataAddressOffset :=
        (st.dataAddressOffset + getSizeInBasic tok.blockSizeCode * tok.init_value.length) % 2 ^ 16 }
  else st

/-- `SymbolTable::addJumpSymbol_` (symbolTable.h lines 166-178).  A thrown
collision is `.error (err, st)` where `st` is the state at the moment of the
throw. -/
def addJumpSymbol_ (st : AsmState) (id : Nat) (symbol : SymbolToken) :
    Except (AsmError × AsmState) AsmState :=
  let entry : SymbolEntry :=
    .jump ⟨id, symbol.symbolName, symbol.isExport⟩ st.codeAddressOffset
  match findIfSymbol_ st.symbols (getLabelData entry) with
  | some err => .error (err, st)
  | none => .ok { st with symbols := st.symbols ++ [entry] }

/-- `SymbolTable::addDataSymbol_` (symbolTable.h lines 180-195): the entry
records the resolver's current data offset and
`elementCount = init_value.size()`; the collision check runs before
`updateOffsets` advances the data offset. -/
def addDataSymbol_ (getSizeInBasic : Nat → Nat) (st : AsmState) (id : Nat)
    (symbol : SymbolToken) : Except (AsmError × AsmState) AsmState :=
  let entry : SymbolEntry :=
    .data ⟨id, symbol.symbolName, symbol.isExport⟩ st.dataAddressOffset
      symbol.blockSizeCode symbol.init_value.length
  match findIfSymbol_ st.symbols (getLabelData entry) with
  | some err => .error (err, st)
  | none =>
    let st1 := updateOffsetsSymbol getSizeInBasic st symbol
    .ok { st1 with symbols := st1.symbols ++ [entry] }

/-- `SymbolTable::addConstSymbol_` (symbolTable.h lines 197-210). -/
def addConstSymbol_ (st : AsmState) (id : Nat) (symbol : SymbolToken) :
    Except (AsmError × AsmState) AsmState :=
  let entry : SymbolEntry :=
    .konst ⟨id, symbol.symbolName, symbol.isExport⟩ symbol.blockSizeCode symbol.init_value
  match findIfSymbol_ st.symbols (getLabelData entry) with
  | some err => .error (err, st)
  | none => .ok { st with symbols := st.symbols ++ [entry] }

/-- `SymbolTable::addSymbol` (symbolTable.h lines 227-244). -/
def addSymbol (getSizeInBasic : Nat → Nat) (st : AsmState) (id : Nat) (symbol : SymbolToken) :
    Except (AsmError × AsmState) AsmState :=
  match symbol.symbolType with
  | .JUMP => addJumpSymbol_ st id symbol
  | .DATA => addDataSymbol_ getSizeInBasic st id symbol
  | .CONST => addConstSymbol_ st id symbol

/-- `SymbolTable::resolveSymbol` (symbolTable.h lines 254-307).
`getSizeInBasic` is the `SymbolTraits::getSizeInBasic` trait function;
`LargestType` is `uint64` and the Data address arithmetic runs in `size_t`,
hence the `% 2^64`.  The Const branch shifts `init_value[p]` right by
`size * s` (the C++ shift is undefined for counts ≥ 64; callers in the
claims keep `size * s < 64`). -/
def resolveSymbol (getSizeInBasic : Nat → Nat) (st : AsmState) (id : Nat)
    (name : String) (p s : Nat) : Except AsmError Nat :=
  match findSymbol_ st.symbols name id with
  | none => .error .unknownSymbol
  | some entry =>
    match entry with
    | .jump _ codeAddressOffset =>
      if p ≠ 0 ∨ s ≠ 0 then .error .jumpSubscriptForbidden
      else .ok codeAddressOffset
    | .data _ dataAddressOffset sizeType elementCount =>
      if p < elementCount then
        let size := getSizeInBasic sizeType
        if s < size then
          .ok ((st.dataBaseAddress + dataAddressOffset + size * p + s) % 2 ^ 64)
        else .error .indexOutOfRangeSplit
      else .error .indexOutOfRangeArray
    | .konst _ sizeType init_value =>
      if p < init_value.length then
        let size := getSizeInBasic sizeType
        if s < size then
          .ok (init_value.getD p 0 >>> (size * s))
        else .error .indexOutOfRangeSplit
      else .error .indexOutOfRangeArray

/-- `risc16::AssemblerTraits::getSizeInBasic` (asm.cpp lines 114-128):
`NO_DATA → 0`, `ASCII_DATA → 1`, `.word → 1`, `.dword → 2`, `.qword → 4`. -/
def risc16GetSizeInBasic (sz : Nat) : Nat :=
  if sz = 0 then 0
  else if sz = 1 then 1
  else if sz = 2 then 1
  else if sz = 3 then 2
  else if sz = 4 then 4
  else 0

/-! ## genAsmLib/codedInstruction.h -/

/-- `easyMath::nBitMask<Integer>` (easyMath.h lines 678-687) for a plain
unsigned integer of width `vw`: `(Integer(1) << size) - 1`; the C++ shift is
defined for `size < vw`. -/
def nBitMask (vw size : Nat) : Nat :=
  ((1 <<< size) % 2 ^ vw) - 1

/-- The mask used by `CodedInstruction::access` (codedInstruction.h line 81):
`easyMath::nBitMask` at `std::bitset<widthMax>`.  `std::bitset` has no
subtraction, so the generic `(x << size) - 1` does not instantiate as
written; we model the documented mask semantics — the low `size` bits set,
within the `W`-bit vector. -/
def bitsetMask (W size : Nat) : Nat :=
  (2 ^ size - 1) % 2 ^ W

/-- One iteration of the `load` loop of `CodedInstruction`
(codedInstruction.h lines 65-74) for the field `(offset, size)` and value
`v` of an unsigned `ValueType` of width `vw`, acting on the `W`-bit vector
`d`: clear the field bits, then or-in `(v & mask) << offset`. -/
def loadField (W vw : Nat) (d : Nat) (offset size v : Nat) : Nat :=
  let mask := nBitMask vw size
  let cleared := d &&& ((2 ^ W - 1) ^^^ ((mask <<< offset) % 2 ^ W))
  cleared ||| (((v &&& mask) <<< offset) % 2 ^ W)

/-- `CodedInstruction::load` (codedInstruction.h lines 49-75): fields are
applied in order; `none` models the thrown `std::invalid_argument` when the
field and data counts differ. -/
def load (W vw : Nat) (d : Nat) (fieldInfo : List (Nat × Nat)) (dataList : List Nat) :
    Option Nat :=
  if fieldInfo.length ≠ dataList.length then none
  else some ((fieldInfo.zip dataList).foldl
    (fun acc fd => loadField W vw acc fd.1.1 fd.1.2 fd.2) d)

/-- `CodedInstruction::access` (codedInstruction.h lines 77-84): mask the
addressed field and right-align it. -/
def access (W : Nat) (d : Nat) (offset size : Nat) : Nat :=
  (d &&& ((bitsetMask W size <<< offset) % 2 ^ W)) >>> offset

/-! ## Claim theorems -/

/-- C1 — Number round-trip fails on the octal carry-splitting path: the
octal rendering of `n = 2^63` (a value representable in the 64-bit target
width) is `1` followed by 21 zeros; with the leading-`0` octal prefix it has
22 digits, `22 * 3 = 66 > 64`, so parsing runs the partial-digit branch of
`convertDirectTranslatableBaseString_`, which discards the accumulated
value: `convertNumberString` returns `0`, not `2^63`. -/
theorem c1_number_roundtrip_failing_input :
    ('0' :: Nat.toDigits 8 (2 ^ 63)) = '0' :: '1' :: List.replicate 21 '0'
    ∧ convertNumberString 64 ('0' :: '1' :: List.replicate 21 '0') = some 0
    ∧ (2 ^ 63 : Nat) < 2 ^ 64
    ∧ (0 : Nat) ≠ 2 ^ 63 :=
  ⟨by decide, by decide, by decide, by decide⟩

/-- C5 — The whitespace set does not contain NUL: the C++
`WHITESPACE_STRING` view built from the literal `" \n\t\r\0"` stops at the
embedded NUL, so `stripWhiteSpace` leaves a NUL-only string untouched
instead of returning the empty string, while the other four characters are
trimmed as claimed. -/
theorem c5_nul_not_trimmed :
    stripWhiteSpace [Char.ofNat 0] = [Char.ofNat 0]
    ∧ [Char.ofNat 0] ≠ ([] : List Char)
    ∧ stripWhiteSpace [' ', '\t', '\r', '\n'] = []
    ∧ WHITESPACE_STRING.contains (Char.ofNat 0) = false :=
  ⟨by decide, by decide, by decide, by decide⟩

/-- C6 — Escape round-trip fails for the octal escape of `c = 64`: the
octal form of 64 is `100` (three digits, `3 * 3 = 9 > 8` bits), so
`convertEscapedString "\o100"` runs the partial-digit branch and yields the
NUL character instead of `'@'` (code 64); the decimal and hex escapes of 64
do decode correctly. -/
theorem c6_escape_roundtrip_failing_input :
    Nat.toDigits 8 64 = ['1', '0', '0']
    ∧ convertEscapedString ['\\', 'o', '1', '0', '0'] = some (Char.ofNat 0)
    ∧ Char.ofNat 0 ≠ Char.ofNat 64
    ∧ convertEscapedString ['\\', 'x', '4', '0'] = some (Char.ofNat 64)
    ∧ convertEscapedString ['\\', '6', '4'] = some (Char.ofNat 64) :=
  ⟨by decide, by decide, by decide, by decide, by decide⟩

/-- C2 — Resolution identity for Jump and Data symbols: when the lookup
finds a Jump entry, resolution at subscripts `(0, 0)` returns exactly its
recorded `codeAddressOffset` (the code base address never contributes); when
it finds a Data entry whose `elementCount` exceeds `p` and whose block size
in basic units exceeds `s`, resolution returns
`dataBaseAddress + dataAddressOffset + size·p + s`.  The final conjunct ties
the recorded offset to insertion: a successful `addSymbol` of a Jump token
appends an entry carrying the resolver's current code offset. -/
theorem c2_resolution_identity (getSizeInBasic : Nat → Nat) (st : AsmState) (id : Nat)
    (name : String) (p s : Nat) :
    (∀ b co, findSymbol_ st.symbols name id = some (.jump b co) →
      resolveSymbol getSizeInBasic st id name 0 0 = .ok co)
    ∧ (∀ b dOff szT cnt, findSymbol_ st.symbols name id = some (.data b dOff szT cnt) →
        p < cnt → s < getSizeInBasic szT →
        st.dataBaseAddress + dOff + getSizeInBasic szT * p + s < 2 ^ 64 →
        resolveSymbol getSizeInBasic st id name p s
          = .ok (st.dataBaseAddress + dOff + getSizeInBasic szT * p + s))
    ∧ (∀ tok st', tok.symbolType = .JUMP →
        addSymbol getSizeInBasic st id tok = .ok st' →
        st'.symbols = st.symbols
          ++ [.jump ⟨id, tok.symbolName, tok.isExport⟩ st.codeAddressOffset]) := by
  refine ⟨?_, ?_, ?_⟩
  · intro b co hfind
    rw [resolveSymbol, hfind]
    simp
  · intro b dOff szT cnt hfind hp hs hlt
    rw [resolveSymbol, hfind]
    simp only [if_pos hp, if_pos hs]
    rw [Nat.mod_eq_of_lt hlt]
  · intro tok st' hty hadd
    simp only [addSymbol, hty] at hadd
    rw [addJumpSymbol_] at hadd
    split at hadd
    · exact Except.noConfusion hadd
    · cases hadd
      rfl

/-- Witness for C2 at a concrete state: a Jump entry at offset 5 resolves to
5 even with a non-zero code base address, a Data entry with offset 7, dword
blocks (2 basic units) and 4 elements resolves `("buf", 2, 1)` to
`1000 + 7 + 2·2 + 1 = 1012`, and adding a Jump token records code offset 3. -/
theorem c2_resolution_identity_witness :
    resolveSymbol risc16GetSizeInBasic
        ⟨[.jump ⟨1, "L", false⟩ 5, .data ⟨1, "buf", false⟩ 7 3 4], 100, 1000, 3, 0⟩ 1 "L" 0 0
      = .ok 5
    ∧ resolveSymbol risc16GetSizeInBasic
        ⟨[.jump ⟨1, "L", false⟩ 5, .data ⟨1, "buf", false⟩ 7 3 4], 100, 1000, 3, 0⟩ 1 "buf" 2 1
      = .ok 1012
    ∧ addSymbol risc16GetSizeInBasic
        ⟨[.jump ⟨1, "L", false⟩ 5, .data ⟨1, "buf", false⟩ 7 3 4], 100, 1000, 3, 0⟩ 1
        ⟨"M", false, .JUMP, 0, []⟩
      = .ok ⟨[.jump ⟨1, "L", false⟩ 5, .data ⟨1, "buf", false⟩ 7 3 4,
              .jump ⟨1, "M", false⟩ 3], 100, 1000, 3, 0⟩ := by
  have h := c2_resolution_identity risc16GetSizeInBasic
    ⟨[.jump ⟨1, "L", false⟩ 5, .data ⟨1, "buf", false⟩ 7 3 4], 100, 1000, 3, 0⟩ 1 "L" 2 1
  have h2 := c2_resolution_identity risc16GetSizeInBasic
    ⟨[.jump ⟨1, "L", false⟩ 5, .data ⟨1, "buf", false⟩ 7 3 4], 100, 1000, 3, 0⟩ 1 "buf" 2 1
  refine ⟨h.1 ⟨1, "L", false⟩ 5 (by decide), ?_, by decide⟩
  have := h2.2.1 ⟨1, "buf", false⟩ 7 3 4 (by decide) (by decide) (by decide) (by decide)
  simpa using this

/-- C3 — Const sub-unit resolution: a Const entry found by the lookup, with
`p` inside the stored initial values and `s` below the block size in basic
units, resolves to `init_value[p] >> (size · s)` — the literal product of
the basic-unit count and the secondary index used as a bit-shift count.
(The bound `size · s < 64` keeps the C++ `uint64` shift within defined
behaviour.) -/
theorem c3_const_subunit_resolution (getSizeInBasic : Nat → Nat) (st : AsmState) (id : Nat)
    (name : String) (p s : Nat) (b : BasicSymbol) (szT : Nat) (init : List Nat)
    (hfind : findSymbol_ st.symbols name id = some (.konst b szT init))
    (hp : p < init.length) (hs : s < getSizeInBasic szT)
    (hshift : getSizeInBasic szT * s < 64) :
    resolveSymbol getSizeInBasic st id name p s
      = .ok (init.getD p 0 >>> (getSizeInBasic szT * s)) := by
  rw [resolveSymbol, hfind]
  simp only [if_pos hp, if_pos hs]

/-- Witness for C3: scenario S5 — `k: .const .dword [1] 0xAABBCCDD` with
dword = 2 basic units; `resolve (k, 0, 1)` yields `0xAABBCCDD >> 2 =
0x2AAEF337`. -/
theorem c3_const_subunit_resolution_witness :
    resolveSymbol risc16GetSizeInBasic
        ⟨[.konst ⟨1, "k", false⟩ 3 [0xAABBCCDD]], 0, 0, 0, 0⟩ 1 "k" 0 1
      = .ok 0x2AAEF337
    ∧ (0x2AAEF337 : Nat) = 0xAABBCCDD >>> 2 := by
  have h := c3_const_subunit_resolution risc16GetSizeInBasic
    ⟨[.konst ⟨1, "k", false⟩ 3 [0xAABBCCDD]], 0, 0, 0, 0⟩ 1 "k" 0 1
    ⟨1, "k", false⟩ 3 [0xAABBCCDD] (by decide) (by decide) (by decide) (by decide)
  exact ⟨by simpa using h, by decide⟩

/-- C10 — Atomicity of symbol insertion: whenever `addSymbol` fails with a
collision error, the returned state — symbol list and both resolver
counters — is exactly the input state; in particular the Data collision
check runs before the resolver's data offset is advanced. -/
theorem c10_addSymbol_atomic (getSizeInBasic : Nat → Nat) (st : AsmState) (id : Nat)
    (tok : SymbolToken) (e : AsmError) (st' : AsmState)
    (h : addSymbol getSizeInBasic st id tok = .error (e, st')) : st' = st := by
  rw [addSymbol] at h
  split at h
  · rw [addJumpSymbol_] at h
    split at h
    · cases h; rfl
    · exact Except.noConfusion h
  · rw [addDataSymbol_] at h
    split at h
    · cases h; rfl
    · exact Except.noConfusion h
  · rw [addConstSymbol_] at h
    split at h
    · cases h; rfl
    · exact Except.noConfusion h

/-- Witness for C10: a rejected Data definition (same-unit duplicate name)
leaves the state — including the data offset 7 — untouched. -/
theorem c10_addSymbol_atomic_witness :
    addSymbol risc16GetSizeInBasic ⟨[.jump ⟨1, "a", false⟩ 0], 0, 0, 3, 7⟩ 1
        ⟨"a", false, .DATA, 3, [1, 2]⟩
      = .error (.symbolRedefined, ⟨[.jump ⟨1, "a", false⟩ 0], 0, 0, 3, 7⟩)
    ∧ (⟨[.jump ⟨1, "a", false⟩ 0], 0, 0, 3, 7⟩ : AsmState)
      = ⟨[.jump ⟨1, "a", false⟩ 0], 0, 0, 3, 7⟩ :=
  ⟨by decide,
   c10_addSymbol_atomic risc16GetSizeInBasic ⟨[.jump ⟨1, "a", false⟩ 0], 0, 0, 3, 7⟩ 1
     ⟨"a", false, .DATA, 3, [1, 2]⟩ .symbolRedefined _ (by decide)⟩

/-- Spec-side description of the per-entry collision test inside
`SymbolTable::findIfSymbol_` (symbolTable.h lines 155-162): the error an
existing entry raises against the new symbol's basic data, if any. -/
def collisionKind (check : BasicSymbol) (e : SymbolEntry) : Option AsmError :=
  if (getLabelData e).symbolName = check.symbolName then
    if (getLabelData e).translationUnitId = check.translationUnitId then
      some .symbolRedefined
    else if (getLabelData e).isExport || check.isExport then
      some .exportCollision
    else none
  else none

/-- The entry each `add*Symbol_` constructs from the token and the
resolver's current offsets (symbolTable.h lines 168-174, 182-189 and
199-205). -/
def newSymbolEntry (st : AsmState) (id : Nat) (tok : SymbolToken) : SymbolEntry :=
  match tok.symbolType with
  | .JUMP => .jump ⟨id, tok.symbolName, tok.isExport⟩ st.codeAddressOffset
  | .DATA => .data ⟨id, tok.symbolName, tok.isExport⟩ st.dataAddressOffset tok.blockSizeCode
      tok.init_value.length
  | .CONST => .konst ⟨id, tok.symbolName, tok.isExport⟩ tok.blockSizeCode tok.init_value

/-- The scan of `findIfSymbol_` accepts exactly when no entry collides. -/
theorem findIfSymbol_eq_none_iff {l : List SymbolEntry} {check : BasicSymbol} :
    findIfSymbol_ l check = none ↔ ∀ e ∈ l, collisionKind check e = none := by
  induction l with
  | nil => simp [findIfSymbol_]
  | cons e rest ih =>
    simp only [findIfSymbol_]
    by_cases h1 : (getLabelData e).symbolName = check.symbolName
    · by_cases h2 : (getLabelData e).translationUnitId = check.translationUnitId
      · rw [if_pos h1, if_pos h2]
        constructor
        · intro hsome
          exact Option.noConfusion hsome
        · intro hall
          have := hall e (by simp)
          rw [collisionKind, if_pos h1, if_pos h2] at this
          exact Option.noConfusion this
      · by_cases h3 : ((getLabelData e).isExport || check.isExport) = true
        · rw [if_pos h1, if_neg h2, if_pos h3]
          constructor
          · intro hsome
            exact Option.noConfusion hsome
          · intro hall
            have := hall e (by simp)
            rw [collisionKind, if_pos h1, if_neg h2, if_pos h3] at this
            exact Option.noConfusion this
        · rw [if_pos h1, if_neg h2, if_neg h3, ih]
          constructor
          · intro hall
            intro e' he'
            rcases List.mem_cons.mp he' with he' | he'
            · subst he'
              rw [collisionKind, if_pos h1, if_neg h2, if_neg h3]
            · exact hall e' he'
          · intro hall e' he'
            exact hall e' (List.mem_cons_of_mem _ he')
    · rw [if_neg h1, ih]
      constructor
      · intro hall e' he'
        rcases List.mem_cons.mp he' with he' | he'
        · subst he'
          rw [collisionKind, if_neg h1]
        · exact hall e' he'
      · intro hall e' he'
        exact hall e' (List.mem_cons_of_mem _ he')

/-- When the scan of `findIfSymbol_` rejects, the reported error is the one
raised by the first colliding entry in table order. -/
theorem findIfSymbol_eq_some_first {l : List SymbolEntry} {check : BasicSymbol} {err : AsmError}
    (h : findIfSymbol_ l check = some err) :
    ∃ (i : Nat) (e : SymbolEntry), l[i]? = some e ∧ collisionKind check e = some err
      ∧ ∀ (j : Nat) (e' : SymbolEntry), j < i → l[j]? = some e' →
          collisionKind check e' = none := by
  induction l with
  | nil => simp [findIfSymbol_] at h
  | cons e rest ih =>
    simp only [findIfSymbol_] at h
    by_cases h1 : (getLabelData e).symbolName = check.symbolName
    · rw [if_pos h1] at h
      by_cases h2 : (getLabelData e).translationUnitId = check.translationUnitId
      · rw [if_pos h2] at h
        cases h
        exact ⟨0, e, by simp, by simp [collisionKind, h1, h2], by omega⟩
      · rw [if_neg h2] at h
        by_cases h3 : ((getLabelData e).isExport || check.isExport) = true
        · rw [if_pos h3] at h
          cases h
          exact ⟨0, e, by simp, by simp [collisionKind, h1, h2, h3], by omega⟩
        · rw [if_neg h3] at h
          obtain ⟨i, e', hget, hk, hprev⟩ := ih h
          refine ⟨i + 1, e', by simpa using hget, hk, ?_⟩
          intro j e'' hj hget'
          cases j with
          | zero =>
            simp only [List.getElem?_cons_zero, Option.some.injEq] at hget'
            subst hget'
            simp [collisionKind, h1, h2, h3]
          | succ j =>
            exact hprev j e'' (by omega) (by simpa using hget')
    · rw [if_neg h1] at h
      obtain ⟨i, e', hget, hk, hprev⟩ := ih h
      refine ⟨i + 1, e', by simpa using hget, hk, ?_⟩
      intro j e'' hj hget'
      cases j with
      | zero =>
        simp only [List.getElem?_cons_zero, Option.some.injEq] at hget'
        subst hget'
        simp [collisionKind, h1]
      | succ j =>
        exact hprev j e'' (by omega) (by simpa using hget')

/-- C4, counterexample to the claim as stated: in the reachable table
`[("a", unit 2, local), ("a", unit 1, local)]`, adding an exported `"a"`
for unit 1 finds the cross-unit entry first and fails with the
ExportCollision-style error, even though an entry with the same name and
the same translation unit id exists — where the claim promises the
SymbolRedefined-style error. -/
theorem c4_counterexample :
    ((⟨[.jump ⟨2, "a", false⟩ 0, .jump ⟨1, "a", false⟩ 0], 0, 0, 0, 0⟩ : AsmState).symbols.any
        fun e => (getLabelData e).symbolName = "a" ∧ (getLabelData e).translationUnitId = 1) = true
    ∧ addSymbol risc16GetSizeInBasic
        ⟨[.jump ⟨2, "a", false⟩ 0, .jump ⟨1, "a", false⟩ 0], 0, 0, 0, 0⟩ 1
        ⟨"a", true, .JUMP, 0, []⟩
      = .error (.exportCollision, ⟨[.jump ⟨2, "a", false⟩ 0, .jump ⟨1, "a", false⟩ 0], 0, 0, 0, 0⟩)
    ∧ (AsmError.exportCollision ≠ AsmError.symbolRedefined) :=
  ⟨by decide, by decide, by decide⟩

/-- C4 as amended: insertion succeeds — appending the constructed entry and,
for Data, advancing the data offset — exactly when no existing entry
collides with the new symbol (same name and: same unit, or either side
exported); when it fails, the reported error is that of the *first*
colliding entry in table order (SymbolRedefined for a same-unit entry,
ExportCollision for a cross-unit one with either side exported). -/
theorem c4_symbol_uniqueness (getSizeInBasic : Nat → Nat) (st : AsmState) (id : Nat)
    (tok : SymbolToken) :
    ((∀ e ∈ st.symbols, collisionKind ⟨id, tok.symbolName, tok.isExport⟩ e = none) →
      addSymbol getSizeInBasic st id tok
        = .ok { updateOffsetsSymbol getSizeInBasic st tok with
                symbols := st.symbols ++ [newSymbolEntry st id tok] })
    ∧ (∀ st', addSymbol getSizeInBasic st id tok = .ok st' →
        ∀ e ∈ st.symbols, collisionKind ⟨id, tok.symbolName, tok.isExport⟩ e = none)
    ∧ (∀ err st', addSymbol getSizeInBasic st id tok = .error (err, st') →
        ∃ (i : Nat) (e : SymbolEntry), st.symbols[i]? = some e
          ∧ collisionKind ⟨id, tok.symbolName, tok.isExport⟩ e = some err
          ∧ ∀ (j : Nat) (e' : SymbolEntry), j < i → st.symbols[j]? = some e' →
              collisionKind ⟨id, tok.symbolName, tok.isExport⟩ e' = none) := by
  rcases htr : tok.symbolType with _ | _ | _
  · refine ⟨?_, ?_, ?_⟩
    · intro hnone
      simp only [addSymbol, htr, addJumpSymbol_, getLabelData]
      rw [findIfSymbol_eq_none_iff.mpr hnone]
      simp [updateOffsetsSymbol, htr, newSymbolEntry]
    · intro st' hok
      simp only [addSymbol, htr, addJumpSymbol_, getLabelData] at hok
      split at hok
      · exact Except.noConfusion hok
      · exact findIfSymbol_eq_none_iff.mp (by assumption)
    · intro err st' herr
      simp only [addSymbol, htr, addJumpSymbol_, getLabelData] at herr
      split at herr
      · obtain ⟨h1, -⟩ := Prod.mk.injEq .. ▸ (Except.error.injEq .. ▸ herr)
        exact h1 ▸ findIfSymbol_eq_some_first (by assumption)
      · exact Except.noConfusion herr
  · refine ⟨?_, ?_, ?_⟩
    · intro hnone
      simp only [addSymbol, htr, addDataSymbol_, getLabelData]
      rw [findIfSymbol_eq_none_iff.mpr hnone]
      simp [updateOffsetsSymbol, htr, newSymbolEntry]
    · intro st' hok
      simp only [addSymbol, htr, addDataSymbol_, getLabelData] at hok
      split at hok
      · exact Except.noConfusion hok
      · exact findIfSymbol_eq_none_iff.mp (by assumption)
    · intro err st' herr
      simp only [addSymbol, htr, addDataSymbol_, getLabelData] at herr
      split at herr
      · obtain ⟨h1, -⟩ := Prod.mk.injEq .. ▸ (Except.error.injEq .. ▸ herr)
        exact h1 ▸ findIfSymbol_eq_some_first (by assumption)
      · exact Except.noConfusion herr
  · refine ⟨?_, ?_, ?_⟩
    · intro hnone
      simp only [addSymbol, htr, addConstSymbol_, getLabelData]
      rw [findIfSymbol_eq_none_iff.mpr hnone]
      simp [updateOffsetsSymbol, htr, newSymbolEntry]
    · intro st' hok
      simp only [addSymbol, htr, addConstSymbol_, getLabelData] at hok
      split at hok
      · exact Except.noConfusion hok
      · exact findIfSymbol_eq_none_iff.mp (by assumption)
    · intro err st' herr
      simp only [addSymbol, htr, addConstSymbol_, getLabelData] at herr
      split at herr
      · obtain ⟨h1, -⟩ := Prod.mk.injEq .. ▸ (Except.error.injEq .. ▸ herr)
        exact h1 ▸ findIfSymbol_eq_some_first (by assumption)
      · exact Except.noConfusion herr

/-- Witness for the amended C4: a collision-free insertion appends the new
Jump entry, and the counterexample state's failure is attributed to the
first colliding entry (index 0, the cross-unit local `"a"` of unit 2
against the exported newcomer). -/
theorem c4_symbol_uniqueness_witness :
    addSymbol risc16GetSizeInBasic ⟨[.jump ⟨2, "b", false⟩ 4], 0, 0, 9, 0⟩ 1
        ⟨"a", false, .JUMP, 0, []⟩
      = .ok ⟨[.jump ⟨2, "b", false⟩ 4, .jump ⟨1, "a", false⟩ 9], 0, 0, 9, 0⟩
    ∧ (∃ (i : Nat) (e : SymbolEntry),
        ([.jump ⟨2, "a", false⟩ 0, .jump ⟨1, "a", false⟩ 0] : List SymbolEntry)[i]? = some e
        ∧ collisionKind ⟨1, "a", true⟩ e = some .exportCollision
        ∧ ∀ (j : Nat) (e' : SymbolEntry), j < i →
            ([.jump ⟨2, "a", false⟩ 0, .jump ⟨1, "a", false⟩ 0] : List SymbolEntry)[j]? = some e'
            → collisionKind ⟨1, "a", true⟩ e' = none) := by
  constructor
  · have h := (c4_symbol_uniqueness risc16GetSizeInBasic ⟨[.jump ⟨2, "b", false⟩ 4], 0, 0, 9, 0⟩ 1
      ⟨"a", false, .JUMP, 0, []⟩).1 (by decide)
    simpa [updateOffsetsSymbol, newSymbolEntry] using h
  · exact (c4_symbol_uniqueness risc16GetSizeInBasic
      ⟨[.jump ⟨2, "a", false⟩ 0, .jump ⟨1, "a", false⟩ 0], 0, 0, 0, 0⟩ 1
      ⟨"a", true, .JUMP, 0, []⟩).2.2 .exportCollision
      ⟨[.jump ⟨2, "a", false⟩ 0, .jump ⟨1, "a", false⟩ 0], 0, 0, 0, 0⟩ (by decide)

/-- C9 — Encoder field truncation: for any field `(offset, size)` with
`offset + size ≤ W` (and `size` within the value type's width `vw`, as the
C++ mask shift requires), a single-field `load` of `value` followed by
`access (offset, size)` yields `value mod 2^size`, regardless of the bit
vector's prior contents `d`. -/
theorem c9_field_truncation (W vw offset size v d d' : Nat)
    (hfit : offset + size ≤ W) (hsz : size < vw) (hd : d < 2 ^ W)
    (hload : load W vw d [(offset, size)] [v] = some d') :
    access W d' offset size = v % 2 ^ size := by
  have hmask : nBitMask vw size = 2 ^ size - 1 := by
    rw [nBitMask, Nat.shiftLeft_eq, one_mul,
      Nat.mod_eq_of_lt (Nat.pow_lt_pow_right one_lt_two hsz)]
  have hd' : d' = loadField W vw d offset size v := by
    simp only [load, List.length_cons, List.length_nil, ne_eq, not_true_eq_false,
      if_false, List.zip_cons_cons, List.zip_nil_right, List.foldl_cons, List.foldl_nil,
      Option.some.injEq] at hload
    exact hload.symm
  subst hd'
  have hWpow : (2 : Nat) ^ size ≤ 2 ^ W := Nat.pow_le_pow_right (by omega) (by omega)
  have hmlt : 2 ^ size - 1 < 2 ^ W := by omega
  have hshift_lt : (2 ^ size - 1) <<< offset < 2 ^ W := by
    rw [Nat.shiftLeft_eq]
    calc (2 ^ size - 1) * 2 ^ offset < 2 ^ size * 2 ^ offset := by
          have : (0 : Nat) < 2 ^ offset := Nat.pos_pow_of_pos _ (by omega)
          have h2 : (2 : Nat) ^ size - 1 < 2 ^ size := by
            have : (0 : Nat) < 2 ^ size := Nat.pos_pow_of_pos _ (by omega)
            omega
          exact (Nat.mul_lt_mul_right this).mpr h2
      _ = 2 ^ (size + offset) := by rw [pow_add, Nat.mul_comm]
      _ ≤ 2 ^ W := Nat.pow_le_pow_right (by omega) (by omega)
  have hv_lt : (v &&& (2 ^ size - 1)) <<< offset < 2 ^ W := by
    rw [Nat.shiftLeft_eq]
    calc (v &&& (2 ^ size - 1)) * 2 ^ offset < 2 ^ size * 2 ^ offset := by
          have : (0 : Nat) < 2 ^ offset := Nat.pos_pow_of_pos _ (by omega)
          exact (Nat.mul_lt_mul_right this).mpr
            (Nat.and_lt_two_pow v (by
              have : (0 : Nat) < 2 ^ size := Nat.pos_pow_of_pos _ (by omega)
              omega))
      _ = 2 ^ (size + offset) := by rw [pow_add, Nat.mul_comm]
      _ ≤ 2 ^ W := Nat.pow_le_pow_right (by omega) (by omega)
  rw [loadField, access, hmask, bitsetMask, Nat.mod_eq_of_lt hmlt,
    Nat.mod_eq_of_lt hshift_lt, Nat.mod_eq_of_lt hv_lt]
  apply Nat.eq_of_testBit_eq
  intro i
  simp only [Nat.testBit_shiftRight, Nat.testBit_land, Nat.testBit_lor, Nat.testBit_xor,
    Nat.testBit_shiftLeft, Nat.testBit_two_pow_sub_one, Nat.testBit_mod_two_pow,
    ge_iff_le, Nat.le_add_right, decide_True, Bool.true_and, Nat.add_sub_cancel_left]
  by_cases hi : i < size
  · have hfw : offset + i < W := by omega
    simp [hi, hfw]
  · simp [hi]

/-- Witness for C9: in a 16-bit word previously holding `0xABCD`, loading
`0x140` into the field `(offset 9, size 7)` stores `0x40` there
(`0x140 mod 2^7`), and `access` recovers it. -/
theorem c9_field_truncation_witness :
    load 16 64 0xABCD [(9, 7)] [0x140] = some 0x81CD
    ∧ access 16 0x81CD 9 7 = 0x140 % 2 ^ 7 :=
  ⟨by decide,
   c9_field_truncation 16 64 9 7 0x140 0xABCD 0x81CD (by decide) (by decide) (by decide)
     (by decide)⟩


/-- Characterisation of `fillLoop`: it preserves the vector length, leaves
entries outside `[i, mn)` untouched, and stores the parsed literal of the
`j`-th split piece at every `j` in `[i, mn)`. -/
theorem fillLoop_spec (w : Nat) (sd : List (List Char)) (mn : Nat) :
    ∀ (k i : Nat), mn - i ≤ k → ∀ (init out : List Nat),
      fillLoop w sd mn i init = some out → mn ≤ init.length →
      out.length = init.length
      ∧ (∀ j, j < i ∨ mn ≤ j → out.getD j 0 = init.getD j 0)
      ∧ (∀ j, i ≤ j → j < mn →
          convertNumberString w (stripWhiteSpace (sd.getD j [])) = some (out.getD j 0)) := by
  intro k
  induction k with
  | zero =>
    intro i hk init out h hlen
    have hge : ¬ i < mn := by omega
    rw [fillLoop, if_neg hge] at h
    cases h
    exact ⟨rfl, fun j _ => rfl, fun j hij hjm => absurd (by omega : i < mn) hge⟩
  | succ k ih =>
    intro i hk init out h hlen
    by_cases hlt : i < mn
    · rw [fillLoop, if_pos hlt] at h
      split at h
      · exact Option.noConfusion h
      · rename_i v hp
        have hset : mn ≤ (init.set i v).length := by
          rw [List.length_set]; exact hlen
        obtain ⟨hlen', huntouched, hparsed⟩ := ih (i + 1) (by omega) (init.set i v) out h hset
        refine ⟨by rw [hlen', List.length_set], ?_, ?_⟩
        · intro j hj
          have hij : i ≠ j := by omega
          rw [huntouched j (by omega)]
          simp [List.getD, List.getElem?_set_ne hij]
        · intro j hij hjm
          rcases Nat.lt_or_ge i j with hlt' | hge
          · exact hparsed j (by omega) hjm
          · have heq : j = i := by omega
            rw [heq, huntouched i (Or.inl (by omega))]
            have hji : (init.set i v).getD i 0 = v := by
              simp [List.getD, List.getElem?_set_self, (show i < init.length by omega)]
            rw [hji]
            exact heq ▸ hp
    · rw [fillLoop, if_neg hlt] at h
      cases h
      exact ⟨rfl, fun j _ => rfl, fun j hij hjm => absurd (by omega : i < mn) hlt⟩

/-- Characterisation of `zeroLoop`: it preserves the vector length, leaves
entries below `i` untouched, and zeroes every entry in `[i, n)`. -/
theorem zeroLoop_spec (n : Nat) :
    ∀ (k i : Nat), n - i ≤ k → ∀ (init : List Nat), n ≤ init.length →
      (zeroLoop n i init).length = init.length
      ∧ (∀ j, j < i → (zeroLoop n i init).getD j 0 = init.getD j 0)
      ∧ (∀ j, i ≤ j → j < n → (zeroLoop n i init).getD j 0 = 0) := by
  intro k
  induction k with
  | zero =>
    intro i hk init hlen
    have hge : ¬ i < n := by omega
    rw [zeroLoop, if_neg hge]
    exact ⟨rfl, fun j _ => rfl, fun j hij hjn => absurd (by omega : i < n) hge⟩
  | succ k ih =>
    intro i hk init hlen
    by_cases hlt : i < n
    · rw [zeroLoop, if_pos hlt]
      have hset : n ≤ (init.set i 0).length := by rw [List.length_set]; exact hlen
      obtain ⟨hlen', huntouched, hzero⟩ := ih (i + 1) (by omega) (init.set i 0) hset
      refine ⟨by rw [hlen', List.length_set], ?_, ?_⟩
      · intro j hj
        have hij : i ≠ j := by omega
        rw [huntouched j (by omega)]
        simp [List.getD, List.getElem?_set_ne hij]
      · intro j hij hjn
        rcases Nat.lt_or_ge i j with hlt' | hge
        · exact hzero j (by omega) hjn
        · have heq : j = i := by omega
          rw [heq, huntouched i (by omega)]
          simp [List.getD, List.getElem?_set_self, (show i < init.length by omega)]
    · rw [zeroLoop, if_neg hlt]
      exact ⟨rfl, fun j _ => rfl, fun j hij hjn => absurd (by omega : i < n) hlt⟩

/-- C8 — Numeric initialiser shaping: for a numeric Data/Const definition
with declared element count `n` whose initialiser remainder splits into `m`
pieces, the produced `init_value` has length exactly `n`; its first
`min n m` entries are the parsed literals in order; the remaining entries
are zero (literals beyond `n` are silently discarded); and the Data table
entry created from such a token records `elementCount` equal to the length
of `init_value`. -/
theorem c8_numeric_initialiser_shaping (w n : Nat) (rem : List Char) (init : List Nat)
    (h : numericInitValues w n rem = some init) :
    init.length = n
    ∧ (∀ i, i < min n (splitUsingDelimiterList rem [',']).length →
        convertNumberString w
            (stripWhiteSpace ((splitUsingDelimiterList rem [',']).getD i []))
          = some (init.getD i 0))
    ∧ (∀ i, min n (splitUsingDelimiterList rem [',']).length ≤ i → i < n → init.getD i 0 = 0)
    ∧ (∀ (getSizeInBasic : Nat → Nat) (st : AsmState) (id : Nat) (tok : SymbolToken)
          (st' : AsmState),
        tok.symbolType = .DATA → tok.init_value = init →
        addSymbol getSizeInBasic st id tok = .ok st' →
        st'.symbols = st.symbols
          ++ [.data ⟨id, tok.symbolName, tok.isExport⟩ st.dataAddressOffset
                tok.blockSizeCode init.length]) := by
  rw [numericInitValues] at h
  set sd := splitUsingDelimiterList rem [','] with hsd
  set mn := min n sd.length with hmn
  rcases hfill : fillLoop w sd mn 0 (List.replicate n 0) with _ | init1 <;>
    rw [hfill] at h
  · exact Option.noConfusion h
  · have hrep : mn ≤ (List.replicate n 0).length := by
      rw [List.length_replicate]; omega
    obtain ⟨hlen1, hun1, hpar1⟩ :=
      fillLoop_spec w sd mn (mn - 0) 0 (by omega) (List.replicate n 0) init1 hfill hrep
    have hlen1' : init1.length = n := by rw [hlen1, List.length_replicate]
    have hn1 : n ≤ init1.length := by omega
    obtain ⟨hlenz, hunz, hzz⟩ := zeroLoop_spec n (n - mn) mn (by omega) init1 hn1
    cases h
    refine ⟨by rw [hlenz, hlen1'], ?_, ?_, ?_⟩
    · intro i hi
      rw [hunz i hi]
      exact hpar1 i (by omega) hi
    · intro i hi hin
      exact hzz i hi hin
    · intro getSizeInBasic st id tok st' hty htv hadd
      simp only [addSymbol, hty, addDataSymbol_, getLabelData] at hadd
      split at hadd
      · exact Except.noConfusion hadd
      · cases hadd
        rw [htv, hlenz, hlen1']
        simp only [updateOffsetsSymbol]
        split <;> rfl

/-- Witness for C8: declared count 4 with initialiser `" 1, 2,3"` yields
`[1, 2, 3, 0]` — three parsed literals in order, zero-padded to the count —
and the entries beyond the three literals are zero. -/
theorem c8_numeric_initialiser_shaping_witness :
    numericInitValues 64 4 " 1, 2,3".toList = some [1, 2, 3, 0]
    ∧ ([1, 2, 3, 0] : List Nat).length = 4
    ∧ (∀ i, min 4 (splitUsingDelimiterList " 1, 2,3".toList [',']).length ≤ i → i < 4 →
        ([1, 2, 3, 0] : List Nat).getD i 0 = 0) := by
  have hval : numericInitValues 64 4 " 1, 2,3".toList = some [1, 2, 3, 0] := by
    simp [numericInitValues, splitUsingDelimiterList, splitPhase1, splitPhase2,
      extractTillDelimiter, fillLoop, zeroLoop]
    decide
  have h := c8_numeric_initialiser_shaping 64 4 " 1, 2,3".toList [1, 2, 3, 0] hval
  exact ⟨hval, h.1, h.2.2.1⟩

/-- One-step unfolding of `skipInner` on a non-empty input. -/
theorem skipInner_cons {dq : Bool} {l : List Char} {c : Char} {e : Bool} {rest : List Char}
    (hl : l ≠ []) (hadv : advanceOverText l = some ((c, e), rest)) :
    skipInner dq l
      = if (c = '\"' ∧ dq ∧ ¬e) ∨ (c = '\'' ∧ ¬dq ∧ ¬e) then some (false, rest)
        else skipInner dq rest := by
  match l with
  | c0 :: cs =>
    rw [skipInner]
    split
    · rename_i h2
      rw [hadv] at h2
      exact Option.noConfusion h2
    · rename_i c' e' rest' h2
      rw [hadv] at h2
      cases h2
      rfl

/-- One-step unfolding of `quotedSpanTags` in the inside-a-span state. -/
theorem quotedSpanTags_cons_some {q : Char} {l : List Char} {c : Char} {e : Bool}
    {rest : List Char} (hl : l ≠ []) (hadv : advanceOverText l = some ((c, e), rest)) :
    quotedSpanTags (some q) l
      = (quotedSpanTags (if ¬e ∧ c = q then none else some q) rest).map (((c, e), true) :: ·) := by
  match l with
  | c0 :: cs =>
    rw [quotedSpanTags]
    split
    · rename_i h2
      rw [hadv] at h2
      exact Option.noConfusion h2
    · rename_i c' e' rest' h2
      rw [hadv] at h2
      cases h2
      rfl

/-- One-step unfolding of `quotedSpanTags` in the outside state. -/
theorem quotedSpanTags_cons_none {l : List Char} {c : Char} {e : Bool}
    {rest : List Char} (hl : l ≠ []) (hadv : advanceOverText l = some ((c, e), rest)) :
    quotedSpanTags none l
      = if ¬e ∧ (c = '\"' ∨ c = '\'') then
          (quotedSpanTags (some c) rest).map (((c, e), true) :: ·)
        else (quotedSpanTags none rest).map (((c, e), false) :: ·) := by
  match l with
  | c0 :: cs =>
    rw [quotedSpanTags]
    split
    · rename_i h2
      rw [hadv] at h2
      exact Option.noConfusion h2
    · rename_i c' e' rest' h2
      rw [hadv] at h2
      cases h2
      rfl

/-- The closing test of the inner scan loop agrees with the tagger's
closing test for the quote character determined by `isDoubleQuote`. -/
theorem close_cond_iff (dq : Bool) (c : Char) (e : Bool) :
    ((c = '\"' ∧ dq ∧ ¬e) ∨ (c = '\'' ∧ ¬dq ∧ ¬e))
      ↔ (¬e ∧ c = (if dq then '\"' else '\'')) := by
  cases dq <;> cases e <;> simp

/-- If the inner scan loop runs to end-of-input (still inside the span),
nothing remains and every logical character it consumed is tagged as inside
the span. -/
theorem skipInner_eoi {dq : Bool} {l rest : List Char}
    (h : skipInner dq l = some (true, rest)) :
    rest = []
    ∧ ∀ ts, quotedSpanTags (some (if dq then '\"' else '\'')) l = some ts →
        ∀ x ∈ ts, x.2 = true := by
  induction l using skipInner.induct dq with
  | case1 =>
    rw [skipInner] at h
    cases h
    exact ⟨rfl, fun ts hts => by
      rw [quotedSpanTags] at hts
      cases hts
      intro x hx
      exact absurd hx (List.not_mem_nil x)⟩
  | case2 c cs h2 =>
    rw [skipInner] at h
    split at h
    · exact Option.noConfusion h
    · rename_i c' e' rest' h2'
      rw [h2] at h2'
      exact Option.noConfusion h2'

  | case3 c cs ce es rest1 h2 hcond =>
    rw [skipInner_cons (by simp) h2, if_pos hcond] at h
    cases h
  | case4 c cs ce es rest1 h2 hcond ih =>
    rw [skipInner_cons (by simp) h2, if_neg hcond] at h
    obtain ⟨hrest, htags⟩ := ih h
    refine ⟨hrest, ?_⟩
    intro ts hts
    rw [quotedSpanTags_cons_some (by simp) h2] at hts
    rw [if_neg (fun hc => hcond ((close_cond_iff dq ce es).mpr hc))] at hts
    obtain ⟨ts', hts', rfl⟩ := Option.map_eq_some'.mp hts
    intro x hx
    rcases List.mem_cons.mp hx with rfl | hx'
    · rfl
    · exact htags ts' hts' x hx'

/-- If the inner scan loop finds the closing quote, the logical characters
it consumed are all tagged as inside the span, and the tagging of the
remainder restarts in the outside state. -/
theorem skipInner_close {dq : Bool} {l rest : List Char}
    (h : skipInner dq l = some (false, rest)) :
    ∀ ts, quotedSpanTags (some (if dq then '\"' else '\'')) l = some ts →
      ∃ ts1 ts2, ts = ts1 ++ ts2 ∧ (∀ x ∈ ts1, x.2 = true)
        ∧ quotedSpanTags none rest = some ts2 := by
  induction l using skipInner.induct dq with
  | case1 =>
    rw [skipInner] at h
    cases h
  | case2 c cs h2 =>
    rw [skipInner] at h
    split at h
    · exact Option.noConfusion h
    · rename_i c' e' rest' h2'
      rw [h2] at h2'
      exact Option.noConfusion h2'
  | case3 c cs ce es rest1 h2 hcond =>
    rw [skipInner_cons (by simp) h2, if_pos hcond] at h
    cases h
    intro ts hts
    rw [quotedSpanTags_cons_some (by simp) h2,
      if_pos ((close_cond_iff dq ce es).mp hcond)] at hts
    obtain ⟨ts', hts', rfl⟩ := Option.map_eq_some'.mp hts
    exact ⟨[((ce, es), true)], ts', rfl, by simp, hts'⟩
  | case4 c cs ce es rest1 h2 hcond ih =>
    rw [skipInner_cons (by simp) h2, if_neg hcond] at h
    intro ts hts
    rw [quotedSpanTags_cons_some (by simp) h2] at hts
    rw [if_neg (fun hc => hcond ((close_cond_iff dq ce es).mpr hc))] at hts
    obtain ⟨ts', hts', rfl⟩ := Option.map_eq_some'.mp hts
    obtain ⟨ts1, ts2, rfl, h1, h2'⟩ := ih h ts' hts'
    refine ⟨((ce, es), true) :: ts1, ts2, rfl, ?_, h2'⟩
    intro x hx
    rcases List.mem_cons.mp hx with rfl | hx'
    · rfl
    · exact h1 x hx'

/-- One-step unfolding of `skipOuter` when the inner loop ends at
end-of-input. -/
theorem skipOuter_inner_eoi {dq : Bool} {l : List Char} {b : Bool}
    (hl : l ≠ []) (h1 : skipInner dq l = some (b, [])) :
    skipOuter dq l = some (((-1 : Int), true), []) := by
  match l with
  | c0 :: cs =>
    rw [skipOuter]
    split
    · rename_i h1'
      rw [h1] at h1'
      exact Option.noConfusion h1'
    · rename_i b' rest' h1'
      rw [h1] at h1'
      cases h1'
      rfl

/-- One-step unfolding of `skipOuter` when the inner loop closes the span
and another logical character follows. -/
theorem skipOuter_step {dq : Bool} {l : List Char} {b : Bool} {r : Char} {rs : List Char}
    {c : Char} {e : Bool} {rest2 : List Char}
    (hl : l ≠ []) (h1 : skipInner dq l = some (b, r :: rs))
    (h2 : advanceOverText (r :: rs) = some ((c, e), rest2)) :
    skipOuter dq l
      = if ¬e ∧ ((c = '"') ∨ c = '\'') then skipOuter (decide (c = '"')) rest2
        else some ((signedOfByte c, true), rest2) := by
  match l with
  | c0 :: cs =>
    rw [skipOuter]
    split
    · rename_i h1a
      rw [h1] at h1a
      exact Option.noConfusion h1a
    · rename_i ba resta h1a
      rw [h1] at h1a
      cases h1a
      split
      · rename_i heq hx
        exact List.noConfusion heq
      · rename_i r2 rs2 hskip hcons hheq
        injection hcons with heqh heqt
        subst heqh
        subst heqt
        split
        · rename_i h2a
          rw [h2] at h2a
          exact Option.noConfusion h2a
        · rename_i ca ea rest2a h2a
          rw [h2] at h2a
          cases h2a
          rfl

/-- One-step unfolding of `skipOuter` when the advance after the closed
span throws. -/
theorem skipOuter_adv_none {dq : Bool} {l : List Char} {b : Bool} {r : Char} {rs : List Char}
    (hl : l ≠ []) (h1 : skipInner dq l = some (b, r :: rs))
    (h2 : advanceOverText (r :: rs) = none) :
    skipOuter dq l = none := by
  match l with
  | c0 :: cs =>
    rw [skipOuter]
    split
    · rfl
    · rename_i ba resta h1a
      rw [h1] at h1a
      cases h1a
      split
      · rename_i heq hx
        exact List.noConfusion heq
      · rename_i r2 rs2 hskip hcons hheq
        injection hcons with heqh heqt
        subst heqh
        subst heqt
        split
        · rfl
        · rename_i ca ea rest2a h2a
          rw [h2] at h2a
          exact Option.noConfusion h2a

/-- Soundness of the outer scan loop against the span tagger: entered just
after an opening quote, it either reaches end-of-input with every consumed
logical character tagged inside (returning the sentinel), or returns the
first outside-tagged logical character, every character before it being
tagged inside. -/
theorem skipOuter_spec :
    ∀ (N : Nat) (dq : Bool) (l : List Char) (v : Int) (f : Bool) (rest : List Char),
      l.length ≤ N → skipOuter dq l = some ((v, f), rest) →
      ∀ ts, quotedSpanTags (some (if dq then '\"' else '\'')) l = some ts →
      (v = -1 ∧ f = true ∧ rest = [] ∧ ∀ x ∈ ts, x.2 = true)
      ∨ (f = true ∧ ∃ (i : Nat) (ce : (Char × Bool) × Bool), ts[i]? = some ce ∧ ce.2 = false
          ∧ v = signedOfByte ce.1.1
          ∧ ∀ (j : Nat) (ce' : (Char × Bool) × Bool), j < i → ts[j]? = some ce' →
              ce'.2 = true) := by
  intro N
  induction N with
  | zero =>
    intro dq l v f rest hN h ts hts
    have hl : l = [] := List.eq_nil_of_length_eq_zero (by omega)
    subst hl
    rw [skipOuter] at h
    cases h
    rw [quotedSpanTags] at hts
    cases hts
    exact Or.inl ⟨rfl, rfl, rfl, by simp⟩
  | succ N ih =>
    intro dq l v f rest hN h ts hts
    match l with
    | [] =>
      rw [skipOuter] at h
      cases h
      rw [quotedSpanTags] at hts
      cases hts
      exact Or.inl ⟨rfl, rfl, rfl, by simp⟩
    | c0 :: cs =>
      rcases h1 : skipInner dq (c0 :: cs) with _ | ⟨b, rest1⟩
      · rw [skipOuter] at h
        split at h
        · exact Option.noConfusion h
        · rename_i b' rest' h1'
          rw [h1] at h1'
          exact Option.noConfusion h1'
      · match hr1 : rest1 with
        | [] =>
          rw [skipOuter_inner_eoi (by simp) h1] at h
          cases h
          refine Or.inl ⟨rfl, rfl, rfl, ?_⟩
          cases b with
          | true => exact (skipInner_eoi h1).2 ts hts
          | false =>
            obtain ⟨ts1, ts2, rfl, hts1, hts2⟩ := skipInner_close h1 ts hts
            rw [quotedSpanTags] at hts2
            cases hts2
            intro x hx
            rcases List.mem_append.mp hx with hx1 | hx2
            · exact hts1 x hx1
            · exact absurd hx2 (List.not_mem_nil x)
        | r :: rs =>
          have hb : b = false := by
            cases b
            · rfl
            · have := (skipInner_eoi h1).1
              exact List.noConfusion this
          subst hb
          rcases h2 : advanceOverText (r :: rs) with _ | ⟨⟨c, e⟩, rest2⟩
          · rw [skipOuter_adv_none (by simp) h1 h2] at h
            exact Option.noConfusion h
          · rw [skipOuter_step (by simp) h1 h2] at h
            obtain ⟨ts1, ts2, rfl, hts1, hts2⟩ := skipInner_close h1 ts hts
            rw [quotedSpanTags_cons_none (by simp) h2] at hts2
            by_cases hop : ¬e ∧ ((c = '\"') ∨ c = '\'')
            · rw [if_pos hop] at h hts2
              obtain ⟨ts3, hts3, rfl⟩ := Option.map_eq_some'.mp hts2
              have hq : (if (decide (c = '\"') : Bool) then '\"' else '\'') = c := by
                rcases hop.2 with hc | hc <;> subst hc <;> simp
              have hlen : rest2.length ≤ N := by
                have t1 := advanceOverText_length_lt h2
                have t2 := skipInner_length_le h1
                simp only [List.length_cons] at *
                omega
              have hts3' : quotedSpanTags (some (if (decide (c = '\"') : Bool)
                  then '\"' else '\'')) rest2 = some ts3 := by
                rw [hq]; exact hts3
              rcases ih (decide (c = '\"')) rest2 v f rest hlen h ts3 hts3' with
                ⟨hv, hf, hrest, hall⟩ | ⟨hf, i, ce, hi, hce, hv, hprev⟩
              · refine Or.inl ⟨hv, hf, hrest, ?_⟩
                intro x hx
                rcases List.mem_append.mp hx with hx1 | hx2
                · exact hts1 x hx1
                · rcases List.mem_cons.mp hx2 with rfl | hx3
                  · rfl
                  · exact hall x hx3
              · refine Or.inr ⟨hf, ts1.length + 1 + i, ce, ?_, hce, hv, ?_⟩
                · rw [List.getElem?_append_right (by omega)]
                  have : ts1.length + 1 + i - ts1.length = i + 1 := by omega
                  rw [this]
                  simpa using hi
                · intro j ce' hj hget
                  by_cases hj1 : j < ts1.length
                  · rw [List.getElem?_append, if_pos hj1] at hget
                    exact hts1 ce' (List.getElem?_mem hget)
                  · by_cases hj2 : j = ts1.length
                    · subst hj2
                      rw [List.getElem?_append_right (by omega), Nat.sub_self] at hget
                      simp only [List.getElem?_cons_zero, Option.some.injEq] at hget
                      rw [← hget]
                    · rw [List.getElem?_append_right (by omega)] at hget
                      have hj3 : j - ts1.length = (j - ts1.length - 1) + 1 := by omega
                      rw [hj3] at hget
                      simp only [List.getElem?_cons_succ] at hget
                      exact hprev (j - ts1.length - 1) ce' (by omega) hget
            · rw [if_neg hop] at h hts2
              cases h
              obtain ⟨ts3, hts3, rfl⟩ := Option.map_eq_some'.mp hts2
              refine Or.inr ⟨rfl, ts1.length, ((c, e), false), ?_, rfl, rfl, ?_⟩
              · rw [List.getElem?_append_right (Nat.le_refl _), Nat.sub_self]
                simp
              · intro j ce' hj hget
                rw [List.getElem?_append, if_pos hj] at hget
                exact hts1 ce' (List.getElem?_mem hget)

/-- C7 — Quote-aware scan soundness: on any line whose logical characters
the span tagger can classify, a successful `advanceSkipReportQuotedText`
either returns the sentinel `-1` with everything it scanned tagged inside
quoted spans (in particular whenever end-of-input is reached inside a
span), or returns a logical character tagged *outside* every quoted span,
all logical characters before it being tagged inside; characters inside
balanced quoted spans are therefore never returned. -/
theorem c7_quote_skip_soundness (l : List Char) (ts : List ((Char × Bool) × Bool))
    (hts : quotedSpanTags none l = some ts)
    (v : Int) (f : Bool) (rest : List Char)
    (h : advanceSkipReportQuotedText l = some ((v, f), rest)) :
    (v = -1 ∧ f = true ∧ rest = [] ∧ ts ≠ [] ∧ ∀ x ∈ ts, x.2 = true)
    ∨ (∃ (i : Nat) (ce : (Char × Bool) × Bool), ts[i]? = some ce ∧ ce.2 = false
        ∧ v = signedOfByte ce.1.1
        ∧ ∀ (j : Nat) (ce' : (Char × Bool) × Bool), j < i → ts[j]? = some ce' →
            ce'.2 = true) := by
  match l with
  | [] =>
    rw [advanceSkipReportQuotedText] at h
    simp [advanceOverText] at h
  | c0 :: cs =>
    rw [advanceSkipReportQuotedText] at h
    split at h
    · exact Option.noConfusion h
    · rename_i c e rest0 hadv
      rw [quotedSpanTags_cons_none (by simp) hadv] at hts
      by_cases hop : ¬e ∧ (c = '\"' ∨ c = '\'')
      · rw [if_pos hop] at h hts
        obtain ⟨ts', hts', rfl⟩ := Option.map_eq_some'.mp hts
        have hq : (if (decide (c = '\"') : Bool) then '\"' else '\'') = c := by
          rcases hop.2 with hc | hc <;> subst hc <;> simp
        have hts'' : quotedSpanTags (some (if (decide (c = '\"') : Bool)
            then '\"' else '\'')) rest0 = some ts' := by
          rw [hq]; exact hts'
        rcases skipOuter_spec rest0.length (decide (c = '\"')) rest0 v f rest
            (Nat.le_refl _) h ts' hts'' with
          ⟨hv, hf, hrest, hall⟩ | ⟨hf, i, ce, hi, hce, hv, hprev⟩
        · refine Or.inl ⟨hv, hf, hrest, by simp, ?_⟩
          intro x hx
          rcases List.mem_cons.mp hx with rfl | hx'
          · rfl
          · exact hall x hx'
        · refine Or.inr ⟨i + 1, ce, by simpa using hi, hce, hv, ?_⟩
          intro j ce' hj hget
          cases j with
          | zero =>
            simp only [List.getElem?_cons_zero, Option.some.injEq] at hget
            rw [← hget]
          | succ j =>
            simp only [List.getElem?_cons_succ] at hget
            exact hprev j ce' (by omega) hget
      · rw [if_neg hop] at h hts
        cases h
        obtain ⟨ts', hts', rfl⟩ := Option.map_eq_some'.mp hts
        exact Or.inr ⟨0, ((c, e), false), by simp, rfl, rfl, by omega⟩

/-- Witness for C7 on the line `'q'x`: the single-quoted span `'q'` is
skipped — its three logical characters are tagged inside the span — and the
scan returns the outside character `x` (code 120) with the skipped flag
set. -/
theorem c7_quote_skip_soundness_witness :
    quotedSpanTags none "'q'x".toList
      = some [(('\'', false), true), (('q', false), true), (('\'', false), true),
              (('x', false), false)]
    ∧ advanceSkipReportQuotedText "'q'x".toList = some ((120, true), [])
    ∧ (((120 : Int) = -1 ∧ true = true ∧ ([] : List Char) = []
          ∧ ([(('\'', false), true), (('q', false), true), (('\'', false), true),
              (('x', false), false)] : List ((Char × Bool) × Bool)) ≠ []
          ∧ ∀ x ∈ ([(('\'', false), true), (('q', false), true), (('\'', false), true),
              (('x', false), false)] : List ((Char × Bool) × Bool)), x.2 = true)
        ∨ (∃ (i : Nat) (ce : (Char × Bool) × Bool),
            ([(('\'', false), true), (('q', false), true), (('\'', false), true),
              (('x', false), false)] : List ((Char × Bool) × Bool))[i]? = some ce
            ∧ ce.2 = false ∧ (120 : Int) = signedOfByte ce.1.1
            ∧ ∀ (j : Nat) (ce' : (Char × Bool) × Bool), j < i →
                ([(('\'', false), true), (('q', false), true), (('\'', false), true),
                  (('x', false), false)] : List ((Char × Bool) × Bool))[j]? = some ce'
                → ce'.2 = true)) := by
  have htags : quotedSpanTags none "'q'x".toList
      = some [(('\'', false), true), (('q', false), true), (('\'', false), true),
              (('x', false), false)] := by
    simp [quotedSpanTags, advanceOverText, advanceEscape]
  have hin : skipInner false "q'x".toList = some (false, "x".toList) := by
    rw [skipInner_cons (by decide)
      (show advanceOverText "q'x".toList = some (('q', false), "'x".toList) by decide)]
    rw [if_neg (by decide)]
    rw [skipInner_cons (by decide)
      (show advanceOverText "'x".toList = some (('\'', false), "x".toList) by decide)]
    rw [if_pos (by decide)]
  have houter : skipOuter false "q'x".toList = some ((120, true), []) := by
    rw [skipOuter_step (by decide) hin
      (show advanceOverText "x".toList = some (('x', false), []) by decide)]
    rw [if_neg (by decide)]
    rfl
  have hskip : advanceSkipReportQuotedText "'q'x".toList = some ((120, true), []) := by
    have hred : advanceSkipReportQuotedText "'q'x".toList = skipOuter false "q'x".toList := rfl
    rw [hred, houter]
  exact ⟨htags, hskip,
    c7_quote_skip_soundness "'q'x".toList _ htags 120 true [] hskip⟩
